import Mathlib

/-!
# Verification of the review-assistant core (`app.py`, `apply_fix_to_github.py`)

Shallow embedding of the pure core of the repository: the guideline
normalizer, the review-prompt construction, the resource-tracking wrapper
around the language-model call, the two regex-based extractors
(`extract_fixes`, `extract_doc_suggestions`), and the GitHub publishing
choreography (`create_pr_with_fix`).

Side effects are made explicit:

* the language-model call becomes a function argument returning
  `Except String String` (failure message or response text);
* the process environment (`GITHUB_TOKEN`) becomes an `Option String`;
* the remote GitHub API becomes a `Remote` record of responses, and the
  publisher returns the list of HTTP requests it issued together with its
  `Except` outcome, so "no call was made" is a provable statement.

The two regular expressions of `app.py` are compiled by hand into
deterministic scanning functions; the compilation follows Python
`re.search` / `re.match` backtracking semantics (leftmost match, lazy
`.*?` taking the shortest extension first, greedy runs of character
classes backtracking only where a shorter run can expose a viable
character).  Character classes `\s` and `\w` are modelled over their
ASCII fragments; inputs exercised by the theorems are ASCII.
-/

namespace Spec2Proof

/-- ASCII fragment of Python's `\s` class (and of `str.strip`'s default
whitespace set): space, tab, newline, carriage return, vertical tab,
form feed. -/
def isWs (c : Char) : Bool :=
  c == ' ' || c == '\t' || c == '\n' || c == '\r' || c == '\x0b' || c == '\x0c'

/-- ASCII fragment of Python's `\w` class: letters, digits, underscore. -/
def isWordChar (c : Char) : Bool :=
  c.isAlphanum || c == '_'

/-- The character class `[-\w./]` of the file-marker line pattern in
`extract_doc_suggestions`. -/
def isFileChar (c : Char) : Bool :=
  isWordChar c || c == '-' || c == '.' || c == '/'

/-- `dropPrefix? p s` returns `some r` with `s = p ++ r` when `p` is a
prefix of `s`, and `none` otherwise (a literal-atom matcher). -/
def dropPrefix? : List Char → List Char → Option (List Char)
  | [], s => some s
  | _ :: _, [] => none
  | p :: ps, c :: cs => if c = p then dropPrefix? ps cs else none

/-- Case-insensitive variant of `dropPrefix?`, for the `(?i)` literals of
the documentation-section pattern. -/
def ciPrefix? : List Char → List Char → Option (List Char)
  | [], s => some s
  | _ :: _, [] => none
  | p :: ps, c :: cs => if c.toLower = p.toLower then ciPrefix? ps cs else none

/-- Substring occurrence test (Python's `in` on strings): `pat` occurs
starting at some position of `l`.  The empty pattern occurs in every
string. -/
def occurs (pat : List Char) : List Char → Bool
  | [] => pat.isPrefixOf []
  | c :: cs => pat.isPrefixOf (c :: cs) || occurs pat cs

/-- Remove trailing characters satisfying `isWs` (the right half of
Python `str.strip`). -/
def stripTrailing (l : List Char) : List Char :=
  l.rdropWhile isWs

/-- Python `str.strip()`: remove leading and trailing whitespace. -/
def stripBoth (l : List Char) : List Char :=
  stripTrailing (l.dropWhile isWs)

/-- `"\n".join`, at the character-list level. -/
def intercalateNl : List (List Char) → List Char
  | [] => []
  | [l] => l
  | l :: rest => l ++ '\n' :: intercalateNl rest

/-- Worker for `splitlines`: `acc` holds the current line reversed.  A
final newline does not open an empty last line, matching Python
`str.splitlines` (only the `\n` boundary of the source data is
modelled). -/
def splitlinesGo (acc : List Char) : List Char → List (List Char)
  | [] => [acc.reverse]
  | c :: rest =>
    if c = '\n' then
      match rest with
      | [] => [acc.reverse]
      | _ :: _ => acc.reverse :: splitlinesGo [] rest
    else splitlinesGo (c :: acc) rest

/-- Python `str.splitlines` restricted to `\n` boundaries; the empty
string yields no lines. -/
def splitlines : List Char → List (List Char)
  | [] => []
  | c :: rest => splitlinesGo [] (c :: rest)

/-- Python `s.replace(old, new, 1)`: replace the first occurrence of
`old` (an empty `old` matches at position 0, so the replacement is
prepended). -/
def replaceFirst (old new : List Char) : List Char → List Char
  | [] => if old.isPrefixOf ([] : List Char) then new else []
  | c :: cs =>
    if old.isPrefixOf (c :: cs) then new ++ (c :: cs).drop old.length
    else c :: replaceFirst old new cs

/-- `re.search`: try the position matcher `f` at every start position
from the left, returning the first success. -/
def firstMatch (f : List Char → Option (List Char)) : List Char → Option (List Char)
  | [] => f []
  | c :: cs =>
    match f (c :: cs) with
    | some r => some r
    | none => firstMatch f cs

/-! ## `extract_fixes` (app.py lines 143-146)

Hand compilation of
`re.search(r'\[FIX_START\]\s*```.*?(\w*)\n(.*?)\s*```\s*\[FIX_END\]', t, re.DOTALL)`
followed by `match.group(2).strip()`.

* `\s*` followed by a non-whitespace literal is deterministic: consume
  the maximal whitespace run, then require the literal.
* `.*?(\w*)\n` (DOTALL) succeeds, in order of preference, with the
  capture ending at each successive `\n` of the remaining text: for the
  earliest `\n` there is always a split where `\w*` takes the word
  characters directly preceding it, and all splits reaching the same
  `\n` leave the same continuation position.
* `(.*?)\s*` + literal: the lazy body grows one character at a time; at
  each length the greedy `\s*` + literal check is deterministic as above.
-/

def fixStartMarker : List Char := "[FIX_START]".data
def fixEndMarker : List Char := "[FIX_END]".data
def ticks : List Char := "```".data

/-- The deterministic check for `\s*```\s*\[FIX_END\]` as a prefix. -/
def closeCheck (cs : List Char) : Bool :=
  match dropPrefix? ticks (cs.dropWhile isWs) with
  | none => false
  | some r => (dropPrefix? fixEndMarker (r.dropWhile isWs)).isSome

/-- The lazy body `(.*?)` of the fix pattern: the shortest prefix whose
remainder passes `closeCheck`. -/
def fixCont : List Char → Option (List Char)
  | [] => none
  | c :: rest =>
    if closeCheck (c :: rest) then some []
    else (fixCont rest).map (fun l => c :: l)

/-- Candidate continuations of `.*?(\w*)\n`: the body may start after
each successive newline of the text following the opening fence. -/
def tryNewlines : List Char → Option (List Char)
  | [] => none
  | c :: rest =>
    if c = '\n' then
      match fixCont rest with
      | some b => some b
      | none => tryNewlines rest
    else tryNewlines rest

/-- The fix pattern anchored at the head of `cs`; returns capture
group 2 (the raw body). -/
def fixMatchAt (cs : List Char) : Option (List Char) :=
  match dropPrefix? fixStartMarker cs with
  | none => none
  | some r1 =>
    match dropPrefix? ticks (r1.dropWhile isWs) with
    | none => none
    | some r2 => tryNewlines r2

/-- `extract_fixes` of app.py: the trimmed body of the first fix block,
or the empty string. -/
def extract_fixes (s : String) : String :=
  match firstMatch fixMatchAt s.data with
  | some b => String.mk (stripBoth b)
  | none => ""

/-- A well-formed fix block as the spec describes it: the start marker,
optional whitespace, a fenced code block with an optional language tag,
optional whitespace, the end marker. -/
def mkFixBlock (ws1 lang body ws2 : String) : String :=
  "[FIX_START]" ++ ws1 ++ "```" ++ lang ++ "\n" ++ body ++ "\n```" ++ ws2 ++ "[FIX_END]"

/-! ## `extract_doc_suggestions` (app.py lines 149-177)

Hand compilation of
`re.search(r"(?i)Documentation\s+Suggestions\s*:\s*(.+?)(?=(\n\d+\.\s|\Z))", t, re.DOTALL)`
followed by the line-scanning loop over `raw.group(1).strip().splitlines()`
with the per-line pattern `re.match(r"^\s*([-\w./]+)\s*[:\-]\s*(.*)", line)`.

* The lazy `(.+?)` takes at least one character and stops at the first
  position where the lookahead (`\n` digits `.` whitespace, or end of
  input) holds; if the greedy `\s*` before it consumed the whole rest of
  the input it backtracks by one character, so a whitespace-only tail
  yields a one-character capture.
* In the line pattern the greedy token `([-\w./]+)` backtracks: if no
  `:` or `-` follows the maximal token run (after optional whitespace),
  the match retries at the last `-` inside the run (the exposed
  character must be in `[:\-]`, and `:` is not a token character).
-/

/-- The lookahead `(\n\d+\.\s|\Z)`: end of input, or a newline, one or
more digits, a dot and a whitespace character. -/
def stopCheck : List Char → Bool
  | [] => true
  | c :: rest =>
    if c = '\n' then
      let ds := rest.takeWhile Char.isDigit
      if ds.isEmpty then false
      else
        match rest.drop ds.length with
        | '.' :: c2 :: _ => isWs c2
        | _ => false
    else false

/-- The lazy `(.+?)` before the lookahead: grow the capture until
`stopCheck` holds on the remainder (it holds on `[]`, so this
terminates with the whole text at the latest). -/
def captureTo : List Char → List Char → List Char
  | acc, [] => acc.reverse
  | acc, c :: rest =>
    if stopCheck (c :: rest) then acc.reverse
    else captureTo (c :: acc) rest

/-- The documentation-section pattern anchored at the head of `cs`;
returns capture group 1 (the raw section text). -/
def docHeaderAt (cs : List Char) : Option (List Char) :=
  match ciPrefix? "documentation".data cs with
  | none => none
  | some r1 =>
    match r1 with
    | [] => none
    | c1 :: _ =>
      if isWs c1 then
        match ciPrefix? "suggestions".data (r1.dropWhile isWs) with
        | none => none
        | some r3 =>
          match r3.dropWhile isWs with
          | ':' :: r4 =>
            match r4.dropWhile isWs with
            | c :: w' => some (captureTo [c] w')
            | [] =>
              -- `\s*` ate the whole remainder: backtrack one character
              -- so `(.+?)` can take it; fails only on empty remainder.
              match r4.reverse with
              | [] => none
              | c :: _ => some [c]
          | _ => none
      else none

/-- Index of the last `-` strictly inside the token run (position ≥ 1),
the backtracking target of the greedy `([-\w./]+)`. -/
def lastDashIdx (l : List Char) : Option Nat :=
  go l 0 none
where
  go : List Char → Nat → Option Nat → Option Nat
    | [], _, best => best
    | c :: rest, i, best =>
      go rest (i + 1) (if c = '-' ∧ 1 ≤ i then some i else best)

/-- `re.match(r"^\s*([-\w./]+)\s*[:\-]\s*(.*)", line)`: returns the two
capture groups (file token, rest of line after the separator and
whitespace). -/
def lineFileMatch (line : List Char) : Option (List Char × List Char) :=
  let afterWs := line.dropWhile isWs
  let R := afterWs.takeWhile isFileChar
  let rest := afterWs.drop R.length
  if R.isEmpty then none
  else
    match rest.dropWhile isWs with
    | c :: tail =>
      if c = ':' ∨ c = '-' then some (R, tail.dropWhile isWs)
      else
        match lastDashIdx R with
        | some k => some (R.take k, ((R.drop (k + 1) ++ rest).dropWhile isWs))
        | none => none
    | [] =>
      match lastDashIdx R with
      | some k => some (R.take k, ((R.drop (k + 1) ++ rest).dropWhile isWs))
      | none => none

/-- One flushed entry: `{"file": current_file, "content":
"\n".join(current_block).strip()}`. -/
def flushEntry (cf : List Char) (blk : List (List Char)) : List Char × List Char :=
  (cf, stripBoth (intercalateNl blk))

/-- The line loop of `extract_doc_suggestions`: `cur` is the open
`(current_file, current_block)` pair, `acc` the flushed suggestions.
`current_file` truthiness (`if current_file:`) is the `cf.isEmpty`
test on the `some` state. -/
def processLines : List (List Char) → Option (List Char × List (List Char)) →
    List (List Char × List Char) → List (List Char × List Char)
  | [], cur, acc =>
    match cur with
    | some (cf, blk) => if cf.isEmpty then acc else acc ++ [flushEntry cf blk]
    | none => acc
  | line :: rest, cur, acc =>
    match lineFileMatch line with
    | some (g1, g2) =>
      let acc' :=
        match cur with
        | some (cf, blk) => if cf.isEmpty then acc else acc ++ [flushEntry cf blk]
        | none => acc
      processLines rest (some (stripBoth g1, if g2.isEmpty then [] else [stripBoth g2])) acc'
    | none =>
      match cur with
      | some (cf, blk) =>
        if cf.isEmpty = false ∧ (stripBoth line).isEmpty = false then
          processLines rest (some (cf, blk ++ [stripBoth line])) acc
        else processLines rest cur acc
      | none => processLines rest cur acc

/-- `extract_doc_suggestions` of app.py: the `[{'file': …, 'content': …}]`
list, as (file, content) pairs. -/
def extract_doc_suggestions (s : String) : List (String × String) :=
  match firstMatch docHeaderAt s.data with
  | none => []
  | some g1 =>
    (processLines (splitlines (stripBoth g1)) none []).map
      (fun p => (String.mk p.1, String.mk p.2))

/-! ## `load_guidelines` (app.py lines 25-60), parsed-list branch

The branch taken when the uploaded file parses to a list of rules:
`"\n".join(f"- {rule}".strip() for rule in data if rule)`.  Rules are
modelled as the strings the parsed JSON/YAML list holds; Python string
truthiness (`if rule`) is `rule ≠ ""`. -/

def load_guidelines_list (data : List String) : String :=
  String.mk (intercalateNl
    ((data.filter (fun r => r != "")).map (fun r => stripBoth ("- " ++ r).data)))

/-! ## `run_code_review` (app.py lines 63-125)

The system prompt is an f-string with one interpolation point
(`{guidelines_block}`); `systemPromptPre`/`systemPromptPost` are the
literal text around it, transcribed verbatim.  The Ollama chat call is
abstracted as a function from the message list to `Except String String`
(failure text or response text), and the measured wall-clock latency of
a successful call as a `Nat` parameter. -/

def systemPromptPre : String :=
  "\n    You are an expert Senior Software Engineer specializing in highly concise, actionable, and structured code reviews.\n    Analyze the provided git diff. Focus ONLY on the changes and their immediate context.\n\n    **GUIDELINE AWARENESS CHECK**: Prioritize checking for violations of **PEP8** (especially naming conventions, maximum 79-character line length, and whitespace rules) and general readability standards.\n    "

def systemPromptPost : String :=
  "\n\n    Your response MUST be in clear Markdown, except number 3) where the output should be displayed in the corresponding programming language markdown and follow this precise structure:\n\n    1.  **Verdict and Effort Estimation**: A brief high-level summary. Must include an Effort Estimation (Low, Medium, or High) to apply suggested changes.\n        * Example: 'Minor stylistic suggestions. Effort: Low.'\n\n    2.  **Issues and Recommendations**: A numbered list of findings. Each point MUST address one or more of the following criteria:\n        * Potential Bugs/Errors (High Priority)\n        * Security Issues (High Priority)\n        * **Style violations (e.g., PEP8 adherence, Google Style)** or readability issues.\n        * Adherence to best practices (including Architecture or CI/CD impact).\n\n    3.  **Automatic Fixes**: For one high-priority issue, provide an immediate fix in a code block. This fix should represent the replacement code, NOT a git patch. If no fixes are critical, state 'None provided.'\n        *All code must be enclosed in a Markdown code block with the language identifier specified (e.g., ```python ... ```), with proper coloring and syntax.\n        * Format for fix: Start the line with `[FIX_START]` and end the block with `[FIX_END]`.\n        \n    4.  **Documentation Suggestions**: List every file that needs an update (e.g., `README.md`, `docs/api.md`) followed by the exact markdown text to add/insert.  \n        If nothing is required, write **exactly**: `Documentation Suggestions: None needed.`\n    "

/-- `guidelines_block = f"\n\n**CUSTOM CODING GUIDELINES**:\n{...}\n" if
custom_guidelines else ""` (app.py line 66). -/
def guidelines_block (custom_guidelines : String) : String :=
  if custom_guidelines ≠ "" then
    "\n\n**CUSTOM CODING GUIDELINES**:\n" ++ custom_guidelines ++ "\n"
  else ""

/-- The `(SYSTEM_PROMPT, user_content)` pair built by `run_code_review`
(app.py lines 66-94), factored out: a pure function of the diff text and
the session guideline text. -/
def build_review_prompt (code_content custom_guidelines : String) : String × String :=
  (systemPromptPre ++ guidelines_block custom_guidelines ++ systemPromptPost,
   "Review this git diff:\n\n" ++ code_content)

/-- The dict returned by `run_code_review`. -/
structure ReviewData where
  review : String
  time : Nat
  input_chars : Nat
  output_chars : Nat
deriving Repr, DecidableEq

/-- `run_code_review` (app.py lines 63-125): builds the prompt, records
the input size before the call, and on failure returns the failure
message with `time = 0` and `output_chars = 0`. -/
def run_code_review (llm : List (String × String) → Except String String)
    (latency : Nat) (custom_guidelines code_content : String) : ReviewData :=
  let p := build_review_prompt code_content custom_guidelines
  let input_size_chars := p.1.length + p.2.length
  match llm [("system", p.1), ("user", p.2)] with
  | .ok review_text =>
    { review := review_text, time := latency,
      input_chars := input_size_chars, output_chars := review_text.length }
  | .error e =>
    { review := "LLM Review Failed: " ++ e, time := 0,
      input_chars := input_size_chars, output_chars := 0 }

/-! ## `create_pr_with_fix` (apply_fix_to_github.py)

The remote API is a record of the responses the six endpoints would
give; the publisher returns the ordered list of HTTP requests it issued
together with its outcome, so the absence of a call is provable.  The
`raise_for_status()` / explicit-raise failures become `PubErr` values.
The base64 transport encoding of the committed content (injective, line
64 of the source) is elided: the `putContents` request carries the
decoded `new_content`. -/

/-- One HTTP request of the publishing choreography, in source order:
get-ref (step 1), create-ref (step 2), get-contents + raw download
(step 3), the markdown POST (dead code, line 57), update-contents
(step 4), create-pull (step 5). -/
inductive Req where
  | getRef (repo : String)
  | createRef (repo branch sha : String)
  | getContents (repo path : String)
  | download (url : String)
  | markdown (text : String)
  | putContents (repo path message content sha branch : String)
  | createPull (repo title head base body : String)
deriving Repr, DecidableEq

/-- Failure outcomes of `create_pr_with_fix`.  The source raises
`ValueError` both for the missing token and the missing snippet, with
distinct messages; they are distinct constructors here. -/
inductive PubErr where
  | typeError (msg : String)
  | missingCredential
  | httpStatusError (what : String)
  | branchCreationFailed (text : String)
  | snippetNotFound
deriving Repr, DecidableEq

/-- Whether a request is the update-contents (commit) PUT. -/
def isUpdateReq : Req → Bool
  | .putContents _ _ _ _ _ _ => true
  | _ => false

/-- Whether a request is the create-pull POST. -/
def isPullReq : Req → Bool
  | .createPull _ _ _ _ _ => true
  | _ => false

/-- The remote side: what each GitHub endpoint answers. -/
structure Remote where
  /-- `GET git/refs/heads/main`: the base tip sha, or an HTTP error. -/
  mainRef : Option String
  /-- Status code of the branch-creation POST (201 = created). -/
  createRefStatus : Nat
  /-- Response text of the branch-creation POST (quoted in the raise). -/
  createRefText : String
  /-- `GET contents/<path>`: `(download_url, blob sha)`, or an HTTP error. -/
  fileInfo : Option (String × String)
  /-- Body served at the download URL (the current file content). -/
  fileText : String
  /-- Whether the update-contents PUT succeeds. -/
  putOk : Bool
  /-- Whether the create-pull POST succeeds. -/
  pullOk : Bool
  /-- `html_url` of the created pull request. -/
  pullUrl : String
deriving Repr, DecidableEq

/-- A concrete remote state on which the full choreography succeeds,
used to instantiate the publisher theorems. -/
def sampleRemote : Remote :=
  { mainRef := some "sha0", createRefStatus := 201, createRefText := "",
    fileInfo := some ("u", "bsha"), fileText := "abc def", putOk := true,
    pullOk := true, pullUrl := "http" }

/-- `old_code in old_content` (Python substring test) at String level. -/
def occursStr (pat s : String) : Bool :=
  occurs pat.data s.data

/-- `old_content.replace(old_code, new_code, 1)` at String level. -/
def replaceFirstStr (s old new : String) : String :=
  String.mk (replaceFirst old.data new.data s.data)

/-- `create_pr_with_fix` of apply_fix_to_github.py.  `env` is
`os.getenv("GITHUB_TOKEN")`; `if not token` covers both an absent and an
empty credential.  Returns the issued requests in order and the
outcome. -/
def create_pr_with_fix (env : Option String) (remote : Remote)
    (repo branch file_path old_code new_code commit_message pr_title pr_body : String) :
    List Req × Except PubErr String :=
  match env with
  | none => ([], .error .missingCredential)
  | some token =>
    if token = "" then ([], .error .missingCredential)
    else
      -- 1. Get default branch SHA
      let t1 := [Req.getRef repo]
      match remote.mainRef with
      | none => (t1, .error (.httpStatusError "git/refs/heads/main"))
      | some main_sha =>
        -- 2. Create new branch
        let t2 := t1 ++ [Req.createRef repo branch main_sha]
        if remote.createRefStatus ≠ 201 then
          (t2, .error (.branchCreationFailed remote.createRefText))
        else
          -- 3. Get current file content (to get blob SHA)
          let t3 := t2 ++ [Req.getContents repo file_path]
          match remote.fileInfo with
          | none => (t3, .error (.httpStatusError file_path))
          | some (download_url, file_sha) =>
            let t4 := t3 ++ [Req.download download_url]
            let old_content := remote.fileText
            if occursStr old_code old_content = false then
              (t4, .error .snippetNotFound)
            else
              -- 4. Update file
              let new_content := replaceFirstStr old_content old_code new_code
              let t5 := t4 ++ [Req.markdown new_content]
              let t6 := t5 ++ [Req.putContents repo file_path commit_message new_content file_sha branch]
              if remote.putOk = false then
                (t6, .error (.httpStatusError "update contents"))
              else
                -- 5. Create PR
                let t7 := t6 ++ [Req.createPull repo pr_title branch "main" pr_body]
                if remote.pullOk = false then
                  (t7, .error (.httpStatusError "create pull"))
                else (t7, .ok remote.pullUrl)

/-- Python keyword-argument binding for the call sites of
`create_pr_with_fix` in app.py.  The docs-PR call site (app.py lines
326-336) passes `append=True`, but the function's parameters are
exactly repo, branch, file_path, old_code, new_code, commit_message,
pr_title, pr_body — there is no `append` parameter — so the call raises
`TypeError` before the body runs: the environment is not read and no
HTTP request is issued. -/
def invoke_create_pr_with_fix (env : Option String) (remote : Remote)
    (repo branch file_path old_code new_code commit_message pr_title pr_body : String)
    (append : Option Bool) : List Req × Except PubErr String :=
  match append with
  | some _ =>
    ([], .error (.typeError "create_pr_with_fix() got an unexpected keyword argument append"))
  | none =>
    create_pr_with_fix env remote repo branch file_path old_code new_code
      commit_message pr_title pr_body

/-! ## Shared lemmas -/

theorem bool_eq_false {b : Bool} (h : ¬ b = true) : b = false := by
  cases b
  · rfl
  · exact absurd rfl h

theorem dropPrefix?_append (p r : List Char) : dropPrefix? p (p ++ r) = some r := by
  induction p with
  | nil => rfl
  | cons c cs ih => simp [dropPrefix?, ih]

theorem dropPrefix?_eq_none (p s : List Char) (h : p.isPrefixOf s = false) :
    dropPrefix? p s = none := by
  induction p generalizing s with
  | nil => simp [List.isPrefixOf] at h
  | cons c cs ih =>
    cases s with
    | nil => rfl
    | cons d ds =>
      simp only [List.isPrefixOf_cons₂] at h
      simp only [dropPrefix?]
      by_cases hd : d = c
      · subst hd
        simp only [beq_self_eq_true, Bool.true_and] at h
        simp [ih ds h]
      · simp [hd]

theorem dropPrefix?_some (p s r : List Char) (h : dropPrefix? p s = some r) :
    s = p ++ r := by
  induction p generalizing s with
  | nil => simpa [dropPrefix?] using h
  | cons c cs ih =>
    cases s with
    | nil => simp [dropPrefix?] at h
    | cons d ds =>
      simp only [dropPrefix?] at h
      by_cases hd : d = c
      · subst hd
        simp only [if_pos rfl] at h
        simpa using ih ds h
      · simp [hd] at h

theorem firstMatch_head_some (f : List Char → Option (List Char)) (l r : List Char)
    (h : f l = some r) : firstMatch f l = some r := by
  cases l with
  | nil => simpa [firstMatch] using h
  | cons c cs => simp [firstMatch, h]

theorem firstMatch_append (f : List Char → Option (List Char)) (p r : List Char)
    (h : ∀ i < p.length, f ((p ++ r).drop i) = none) :
    firstMatch f (p ++ r) = firstMatch f r := by
  induction p with
  | nil => rfl
  | cons c cs ih =>
    have h0 : f (c :: (cs ++ r)) = none := by simpa using h 0 (by simp)
    have hstep : firstMatch f ((c :: cs) ++ r) = firstMatch f (cs ++ r) := by
      rw [List.cons_append]
      simp only [firstMatch, List.append_eq, h0]
    rw [hstep]
    exact ih fun i hi => by simpa using h (i + 1) (by simpa using Nat.succ_lt_succ hi)

theorem dropWhile_append_all {α : Type} (p : α → Bool) (a b : List α)
    (h : a.all p = true) : (a ++ b).dropWhile p = b.dropWhile p := by
  have ha : a.dropWhile p = [] := List.dropWhile_eq_nil_iff.2 (List.all_eq_true.1 h)
  simp [List.dropWhile_append, ha]

theorem dropWhile_append_ne {α : Type} (p : α → Bool) (a b : List α)
    (h : a.dropWhile p ≠ []) : (a ++ b).dropWhile p = a.dropWhile p ++ b := by
  simp [List.dropWhile_append, List.isEmpty_iff, h]

theorem dropWhile_ne_nil_of_all_false {α : Type} (p : α → Bool) (a : List α)
    (h : a.all p = false) : a.dropWhile p ≠ [] := by
  intro hnil
  rw [List.dropWhile_eq_nil_iff] at hnil
  rw [List.all_eq_true.2 hnil] at h
  exact Bool.noConfusion h

theorem dropWhile_idem {α : Type} (p : α → Bool) (l : List α) :
    (l.dropWhile p).dropWhile p = l.dropWhile p := by
  cases h : l.dropWhile p with
  | nil => rfl
  | cons c t =>
    have hc : p c = false := by
      have := List.head_dropWhile_not p l (by simp [h])
      simpa [h] using this
    simp [List.dropWhile_cons, hc]

theorem stripTrailing_eq_nil (l : List Char) (h : l.all isWs = true) :
    stripTrailing l = [] :=
  List.rdropWhile_eq_nil_iff.2 (List.all_eq_true.1 h)

theorem stripTrailing_append_ws (x w : List Char) (h : w.all isWs = true) :
    stripTrailing (x ++ w) = stripTrailing x := by
  unfold stripTrailing List.rdropWhile
  rw [List.reverse_append,
    dropWhile_append_all isWs w.reverse x.reverse (by simpa using h)]

theorem stripTrailing_decomp (l : List Char) :
    ∃ w, l = stripTrailing l ++ w ∧ w.all isWs = true := by
  refine ⟨(l.reverse.takeWhile isWs).reverse, ?_, ?_⟩
  · conv_lhs => rw [← l.reverse_reverse,
      ← List.takeWhile_append_dropWhile isWs l.reverse]
    rw [List.reverse_append]
    rfl
  · rw [List.all_reverse, List.all_eq_true]
    exact fun x hx => List.mem_takeWhile_imp hx

theorem stripTrailing_cons (c : Char) (l : List Char)
    (h : (c :: l).all isWs = false) :
    stripTrailing (c :: l) = c :: stripTrailing l := by
  by_cases hl : l.all isWs = true
  · have hc : isWs c = false := by
      cases hc0 : isWs c
      · rfl
      · exfalso
        simp [List.all_cons, hc0, hl] at h
    rw [stripTrailing_eq_nil l hl]
    unfold stripTrailing List.rdropWhile
    rw [List.reverse_cons,
      dropWhile_append_all isWs l.reverse [c] (by simpa using hl)]
    simp [List.dropWhile_cons, hc]
  · have hl' : l.all isWs = false := bool_eq_false hl
    unfold stripTrailing List.rdropWhile
    rw [List.reverse_cons,
      dropWhile_append_ne isWs l.reverse [c]
        (dropWhile_ne_nil_of_all_false isWs l.reverse (by simpa using hl'))]
    simp [stripTrailing, List.rdropWhile]

theorem stripBoth_stripTrailing (l : List Char) :
    stripBoth (stripTrailing l) = stripBoth l := by
  by_cases hall : l.all isWs = true
  · rw [stripTrailing_eq_nil l hall]
    unfold stripBoth
    rw [List.dropWhile_eq_nil_iff.2 (List.all_eq_true.1 hall)]
    rfl
  · have hall' : l.all isWs = false := bool_eq_false hall
    obtain ⟨w, hw, hwall⟩ := stripTrailing_decomp l
    have hSall : (stripTrailing l).all isWs = false := by
      refine bool_eq_false fun h' => ?_
      have : l.all isWs = true := by
        rw [hw, List.all_append, h', hwall]; rfl
      rw [this] at hall'
      exact Bool.noConfusion hall'
    conv_rhs => rw [hw]
    unfold stripBoth
    rw [dropWhile_append_ne isWs (stripTrailing l) w
      (dropWhile_ne_nil_of_all_false isWs (stripTrailing l) hSall)]
    rw [stripTrailing_append_ws _ w hwall]

theorem mem_stripTrailing (x : Char) (l : List Char) (h : x ∈ stripTrailing l) :
    x ∈ l :=
  (List.rdropWhile_prefix isWs l).subset h

theorem occurs_nil_pat (l : List Char) : occurs [] l = true := by
  cases l <;> simp [occurs, List.isPrefixOf]

theorem occurs_of_suffix (pat S l : List Char) (hs : S <:+ l)
    (hp : pat.isPrefixOf S = true) : occurs pat l = true := by
  induction l with
  | nil =>
    have : S = [] := List.eq_nil_of_suffix_nil hs
    subst this
    simpa [occurs] using hp
  | cons c cs ih =>
    rcases List.suffix_cons_iff.1 hs with h | h
    · subst h
      simp [occurs, hp]
    · simp [occurs, ih h]

theorem occurs_cons_false (pat : List Char) (c : Char) (cs : List Char)
    (h : occurs pat (c :: cs) = false) :
    pat.isPrefixOf (c :: cs) = false ∧ occurs pat cs = false := by
  simpa [occurs] using h

theorem replaceFirst_nil_pat (new s : List Char) : replaceFirst [] new s = new ++ s := by
  cases s <;> simp [replaceFirst, List.isPrefixOf]

theorem replaceFirst_first (old new pre post : List Char)
    (h : ∀ i < pre.length, old.isPrefixOf ((pre ++ old ++ post).drop i) = false) :
    replaceFirst old new (pre ++ (old ++ post)) = pre ++ (new ++ post) := by
  induction pre with
  | nil =>
    simp only [List.nil_append]
    cases old with
    | nil => simp [replaceFirst_nil_pat]
    | cons oc ocs =>
      have hpre : (oc :: ocs).isPrefixOf ((oc :: ocs) ++ post) = true :=
        List.isPrefixOf_iff_prefix.2 (List.prefix_append _ _)
      cases hh : ((oc :: ocs) ++ post) with
      | nil => simp at hh
      | cons d ds =>
        rw [← hh]
        rw [hh, replaceFirst, ← hh, if_pos hpre]
        simp [List.drop_left]
  | cons c pre' ih =>
    have h0 : old.isPrefixOf (c :: (pre' ++ (old ++ post))) = false := by
      simpa using h 0 (by simp)
    simp only [List.cons_append, replaceFirst, h0]
    rw [if_neg (by simp [h0])]
    simp only [List.append_eq]
    rw [ih fun i hi => by simpa using h (i + 1) (by simpa using Nat.succ_lt_succ hi)]

theorem occursStr_nil (s : String) : occursStr "" s = true :=
  occurs_nil_pat s.data

theorem replaceFirstStr_nil (s new : String) : replaceFirstStr s "" new = new ++ s := by
  refine String.ext ?_
  show replaceFirst "".data new.data s.data = (new ++ s).data
  rw [String.data_append]
  exact replaceFirst_nil_pat new.data s.data

theorem replaceFirstStr_first (pre old post new : String)
    (h : ∀ i < pre.data.length,
      old.data.isPrefixOf (((pre ++ old ++ post) : String).data.drop i) = false) :
    replaceFirstStr (pre ++ old ++ post) old new = pre ++ new ++ post := by
  refine String.ext ?_
  show replaceFirst old.data new.data ((pre ++ old ++ post) : String).data =
    ((pre ++ new ++ post) : String).data
  have hdata : ((pre ++ old ++ post) : String).data =
      pre.data ++ (old.data ++ post.data) := by
    simp [String.data_append]
  have hdata' : ((pre ++ new ++ post) : String).data =
      pre.data ++ (new.data ++ post.data) := by
    simp [String.data_append]
  rw [hdata, hdata']
  refine replaceFirst_first old.data new.data pre.data post.data ?_
  intro i hi
  have := h i (by simpa using hi)
  rw [hdata] at this
  simpa [List.append_assoc] using this

theorem splitlinesGo_no_nl (a : List Char) (h : '\n' ∉ a) :
    ∀ acc, splitlinesGo acc a = [acc.reverse ++ a] := by
  induction a with
  | nil => intro acc; simp [splitlinesGo]
  | cons c a' ih =>
    intro acc
    have hc : ¬ c = '\n' := fun e => h (by simp [e])
    have h' : '\n' ∉ a' := fun e => h (List.mem_cons_of_mem _ e)
    have hstep : splitlinesGo acc (c :: a') = splitlinesGo (c :: acc) a' := by
      rw [splitlinesGo.eq_def]
      simp [hc]
    rw [hstep, ih h' (c :: acc)]
    simp

theorem splitlinesGo_mid (a : List Char) (h : '\n' ∉ a) :
    ∀ acc (T : List Char), T ≠ [] →
      splitlinesGo acc (a ++ '\n' :: T) = (acc.reverse ++ a) :: splitlinesGo [] T := by
  induction a with
  | nil =>
    intro acc T hT
    cases T with
    | nil => exact absurd rfl hT
    | cons t ts => simp [splitlinesGo]
  | cons c a' ih =>
    intro acc T hT
    have hc : ¬ c = '\n' := fun e => h (by simp [e])
    have h' : '\n' ∉ a' := fun e => h (List.mem_cons_of_mem _ e)
    have hstep : splitlinesGo acc ((c :: a') ++ '\n' :: T) =
        splitlinesGo (c :: acc) (a' ++ '\n' :: T) := by
      rw [List.cons_append, splitlinesGo.eq_def]
      simp [hc]
    rw [hstep, ih h' (c :: acc) T hT]
    simp

theorem intercalateNl_cons_ne_nil (b : List Char) (L : List (List Char)) (hb : b ≠ []) :
    intercalateNl (b :: L) ≠ [] := by
  cases L with
  | nil => simpa [intercalateNl] using hb
  | cons x xs => simp [intercalateNl]

theorem splitlines_intercalateNl (L : List (List Char)) (hL : L ≠ [])
    (h : ∀ l ∈ L, l ≠ [] ∧ '\n' ∉ l) :
    splitlines (intercalateNl L) = L := by
  induction L with
  | nil => exact absurd rfl hL
  | cons a L' ih =>
    obtain ⟨ha, hanl⟩ := h a (List.mem_cons_self a L')
    cases L' with
    | nil =>
      show splitlines a = [a]
      cases a with
      | nil => exact absurd rfl ha
      | cons c a'' =>
        show splitlinesGo [] (c :: a'') = [c :: a'']
        rw [splitlinesGo_no_nl (c :: a'') hanl []]
        simp
    | cons b L'' =>
      obtain ⟨hb, _⟩ := h b (by simp)
      have hT : intercalateNl (b :: L'') ≠ [] := intercalateNl_cons_ne_nil b L'' hb
      cases a with
      | nil => exact absurd rfl ha
      | cons c a'' =>
        show splitlinesGo [] (c :: (a'' ++ '\n' :: intercalateNl (b :: L''))) =
          (c :: a'') :: b :: L''
        have hnl' : '\n' ∉ (c :: a'') := hanl
        rw [show c :: (a'' ++ '\n' :: intercalateNl (b :: L'')) =
            (c :: a'') ++ '\n' :: intercalateNl (b :: L'') from rfl]
        rw [splitlinesGo_mid (c :: a'') hnl' [] _ hT]
        have hrest : splitlinesGo [] (intercalateNl (b :: L'')) = b :: L'' := by
          have hih := ih (by simp) (fun l hl => h l (List.mem_cons_of_mem _ hl))
          cases hTT : intercalateNl (b :: L'') with
          | nil => exact absurd hTT hT
          | cons t ts =>
            rw [hTT] at hih
            exact hih
        rw [hrest]
        simp

theorem guideline_line_facts (r : String)
    (hany : r.data.any (fun c => !(isWs c)) = true) (hnl : '\n' ∉ r.data) :
    stripBoth ("- " ++ r).data = '-' :: ' ' :: stripTrailing r.data ∧
    '\n' ∉ stripBoth ("- " ++ r).data := by
  have hall : r.data.all isWs = false := by
    refine bool_eq_false fun hall => ?_
    obtain ⟨x, hx, hpx⟩ := List.any_eq_true.1 hany
    have hxx := List.all_eq_true.1 hall x hx
    simp [hxx] at hpx
  have hdata : ("- " ++ r).data = '-' :: ' ' :: r.data := by
    have h2 : ("- " : String).data = ['-', ' '] := rfl
    simp [String.data_append, h2]
  have hall2 : (' ' :: r.data).all isWs = false := by
    simp [List.all_cons, hall]
  have hall3 : ('-' :: ' ' :: r.data).all isWs = false := by
    simp [List.all_cons, hall]
  have hshape : stripBoth ("- " ++ r).data = '-' :: ' ' :: stripTrailing r.data := by
    rw [hdata]
    unfold stripBoth
    rw [List.dropWhile_cons, if_neg (by decide : ¬ (isWs '-' = true))]
    rw [stripTrailing_cons _ _ hall3, stripTrailing_cons _ _ hall2]
  refine ⟨hshape, ?_⟩
  rw [hshape]
  intro hmem
  simp only [List.mem_cons] at hmem
  rcases hmem with h1 | h1 | h1
  · exact absurd h1 (by decide)
  · exact absurd h1 (by decide)
  · exact hnl (mem_stripTrailing _ _ h1)

theorem docHeaderAt_header (X : List Char) :
    docHeaderAt ("Documentation Suggestions:".data ++ X) =
      (match X.dropWhile isWs with
       | c :: w' => some (captureTo [c] w')
       | [] =>
         match X.reverse with
         | [] => none
         | c :: _ => some [c]) := rfl

theorem docHeaderAt_header_cons (X : List Char) (c : Char) (w' : List Char)
    (h : X.dropWhile isWs = c :: w') :
    docHeaderAt ("Documentation Suggestions:".data ++ X) = some (captureTo [c] w') := by
  rw [docHeaderAt_header, h]

theorem captureTo_no_stop (rest : List Char) :
    ∀ acc, (∀ k < rest.length, stopCheck (rest.drop k) = false) →
      captureTo acc rest = acc.reverse ++ rest := by
  induction rest with
  | nil => intro acc _; simp [captureTo]
  | cons c rest' ih =>
    intro acc h
    have h0 : stopCheck (c :: rest') = false := by simpa using h 0 (by simp)
    rw [captureTo, if_neg (by simp [h0])]
    rw [ih (c :: acc) fun k hk => by simpa using h (k + 1) (by simpa using Nat.succ_lt_succ hk)]
    simp

theorem processLines_skip (junk rest : List (List Char))
    (h : ∀ l ∈ junk, lineFileMatch l = none) (acc : List (List Char × List Char)) :
    processLines (junk ++ rest) none acc = processLines rest none acc := by
  induction junk with
  | nil => rfl
  | cons l junk' ih =>
    have h0 : lineFileMatch l = none := h l (by simp)
    rw [List.cons_append, processLines, h0]
    exact ih fun l' hl' => h l' (List.mem_cons_of_mem _ hl')

theorem dropWhile_cons_neg {α : Type} (p : α → Bool) (c : α) (l : List α)
    (h : p c = false) : (c :: l).dropWhile p = c :: l := by
  simp [List.dropWhile_cons, h]

theorem dropPrefix?_ticks_boundary (D rest : List Char) (hne : D ≠ [])
    (h : ticks.isPrefixOf D = false) :
    dropPrefix? ticks (D ++ '\n' :: rest) = none := by
  have ht : ticks = ['`', '`', '`'] := rfl
  cases D with
  | nil => exact absurd rfl hne
  | cons a D1 =>
    cases D1 with
    | nil =>
      by_cases ha : a = '`'
      · subst ha
        simp [dropPrefix?, ht]
      · simp [dropPrefix?, ht, ha]
    | cons b D2 =>
      cases D2 with
      | nil =>
        by_cases ha : a = '`'
        · subst ha
          by_cases hb : b = '`'
          · subst hb
            simp [dropPrefix?, ht]
          · simp [dropPrefix?, ht, hb]
        · simp [dropPrefix?, ht, ha]
      | cons c D3 =>
        by_cases ha : a = '`'
        · subst ha
          by_cases hb : b = '`'
          · subst hb
            by_cases hc : c = '`'
            · subst hc
              exfalso
              have : ticks.isPrefixOf ('`' :: '`' :: '`' :: D3) = true := by
                rw [ht]
                simp [List.isPrefixOf_cons₂, List.isPrefixOf]
              rw [this] at h
              exact Bool.noConfusion h
            · simp [dropPrefix?, ht, hc]
          · simp [dropPrefix?, ht, hb]
        · simp [dropPrefix?, ht, ha]

theorem closeCheck_ws_block (P W2 suf : List Char) (hP : P.all isWs = true)
    (hW2 : W2.all isWs = true) :
    closeCheck (P ++ '\n' :: (ticks ++ (W2 ++ (fixEndMarker ++ suf)))) = true := by
  have ht : ticks = ['`', '`', '`'] := rfl
  have he : fixEndMarker = '[' :: "FIX_END]".data := rfl
  unfold closeCheck
  rw [dropWhile_append_all isWs P _ hP]
  rw [List.dropWhile_cons, if_pos (by decide : isWs '\n' = true)]
  have h1 : (ticks ++ (W2 ++ (fixEndMarker ++ suf))).dropWhile isWs =
      ticks ++ (W2 ++ (fixEndMarker ++ suf)) := by
    rw [ht, List.cons_append]
    exact dropWhile_cons_neg isWs '`' _ (by decide)
  rw [h1, dropPrefix?_append ticks _]
  have h2 : (W2 ++ (fixEndMarker ++ suf)).dropWhile isWs = fixEndMarker ++ suf := by
    rw [dropWhile_append_all isWs W2 _ hW2, he, List.cons_append]
    exact dropWhile_cons_neg isWs '[' _ (by decide)
  show (dropPrefix? fixEndMarker ((W2 ++ (fixEndMarker ++ suf)).dropWhile isWs)).isSome = true
  rw [h2, dropPrefix?_append fixEndMarker suf]
  rfl

theorem closeCheck_inside (B rest : List Char) (hocc : occurs ticks B = false)
    (hall : B.all isWs = false) :
    closeCheck (B ++ '\n' :: rest) = false := by
  unfold closeCheck
  have hDne : B.dropWhile isWs ≠ [] := dropWhile_ne_nil_of_all_false isWs B hall
  rw [dropWhile_append_ne isWs B _ hDne]
  have hDpre : ticks.isPrefixOf (B.dropWhile isWs) = false := by
    refine bool_eq_false fun hp => ?_
    have h2 := occurs_of_suffix ticks (B.dropWhile isWs) B (List.dropWhile_suffix isWs) hp
    rw [h2] at hocc
    exact Bool.noConfusion hocc
  rw [dropPrefix?_ticks_boundary (B.dropWhile isWs) rest hDne hDpre]

theorem fixCont_block (B W2 suf : List Char) (hocc : occurs ticks B = false)
    (hW2 : W2.all isWs = true) :
    fixCont (B ++ '\n' :: (ticks ++ (W2 ++ (fixEndMarker ++ suf)))) =
      some (stripTrailing B) := by
  induction B with
  | nil =>
    have hcc := closeCheck_ws_block [] W2 suf rfl hW2
    rw [List.nil_append] at hcc ⊢
    rw [fixCont, if_pos hcc]
    simp [stripTrailing, List.rdropWhile]
  | cons c B' ih =>
    by_cases hallB : (c :: B').all isWs = true
    · have hcc := closeCheck_ws_block (c :: B') W2 suf hallB hW2
      rw [List.cons_append] at hcc ⊢
      rw [fixCont, if_pos hcc, stripTrailing_eq_nil _ hallB]
    · have hallB' : (c :: B').all isWs = false := bool_eq_false hallB
      have hcc := closeCheck_inside (c :: B')
        (ticks ++ (W2 ++ (fixEndMarker ++ suf))) hocc hallB'
      rw [List.cons_append] at hcc ⊢
      rw [fixCont, if_neg (by simp [hcc])]
      have hocc' : occurs ticks B' = false := (occurs_cons_false ticks c B' hocc).2
      rw [ih hocc', stripTrailing_cons c B' hallB']
      rfl

theorem tryNewlines_word (lang REST : List Char) (hlang : lang.all isWordChar = true)
    (b : List Char) (hcont : fixCont REST = some b) :
    tryNewlines (lang ++ '\n' :: REST) = some b := by
  induction lang with
  | nil =>
    rw [List.nil_append, tryNewlines.eq_def]
    simp [hcont]
  | cons c lang' ih =>
    have hc : isWordChar c = true := List.all_eq_true.1 hlang c (by simp)
    have hc' : ¬ c = '\n' := by
      intro e
      subst e
      exact absurd hc (by decide)
    rw [List.cons_append, tryNewlines.eq_def]
    simp only [if_neg hc']
    exact ih (List.all_eq_true.2 fun x hx => List.all_eq_true.1 hlang x (by simp [hx]))

theorem fixMatchAt_block (ws1 lang body ws2 post : String)
    (hws1 : ws1.data.all isWs = true) (hws2 : ws2.data.all isWs = true)
    (hlang : lang.data.all isWordChar = true)
    (hocc : occurs ticks body.data = false) :
    fixMatchAt ((mkFixBlock ws1 lang body ws2 ++ post).data) =
      some (stripTrailing body.data) := by
  have e2 : ("```" : String).data = ticks := rfl
  have e4 : ("\n```" : String).data = '\n' :: ticks := rfl
  have e3 : ("\n" : String).data = ['\n'] := rfl
  have e5 : ("[FIX_END]" : String).data = fixEndMarker := rfl
  have e1 : ("[FIX_START]" : String).data = fixStartMarker := rfl
  have hdata : (mkFixBlock ws1 lang body ws2 ++ post).data =
      fixStartMarker ++ (ws1.data ++ (ticks ++ (lang.data ++ '\n' ::
        (body.data ++ '\n' :: (ticks ++ (ws2.data ++ (fixEndMarker ++ post.data))))))) := by
    simp [mkFixBlock, String.data_append, e1, e2, e3, e4, e5, List.append_assoc,
      fixStartMarker, fixEndMarker, ticks]
  rw [hdata]
  unfold fixMatchAt
  rw [dropPrefix?_append fixStartMarker _]
  show (match dropPrefix? ticks ((ws1.data ++ (ticks ++ (lang.data ++ '\n' ::
      (body.data ++ '\n' :: (ticks ++ (ws2.data ++ (fixEndMarker ++ post.data))))))).dropWhile
        isWs) with
    | none => none
    | some r2 => tryNewlines r2) = some (stripTrailing body.data)
  rw [dropWhile_append_all isWs ws1.data _ hws1]
  have h1 : (ticks ++ (lang.data ++ '\n' :: (body.data ++ '\n' ::
      (ticks ++ (ws2.data ++ (fixEndMarker ++ post.data)))))).dropWhile isWs =
      ticks ++ (lang.data ++ '\n' :: (body.data ++ '\n' ::
      (ticks ++ (ws2.data ++ (fixEndMarker ++ post.data))))) := by
    rw [show ticks = ['`', '`', '`'] from rfl, List.cons_append]
    exact dropWhile_cons_neg isWs '`' _ (by decide)
  rw [h1, dropPrefix?_append ticks _]
  show tryNewlines (lang.data ++ '\n' :: (body.data ++ '\n' ::
      (ticks ++ (ws2.data ++ (fixEndMarker ++ post.data))))) = some (stripTrailing body.data)
  exact tryNewlines_word lang.data _ hlang _
    (fixCont_block body.data ws2.data post.data hocc hws2)

theorem extract_fixes_no_marker (s : String)
    (h : ∀ i < s.data.length, fixStartMarker.isPrefixOf (s.data.drop i) = false) :
    extract_fixes s = "" := by
  unfold extract_fixes
  have hnone : ∀ l : List Char,
      (∀ i < l.length, fixStartMarker.isPrefixOf (l.drop i) = false) →
      firstMatch fixMatchAt l = none := by
    intro l
    induction l with
    | nil => intro _; rfl
    | cons c cs ih =>
      intro hh
      have h0 : fixMatchAt (c :: cs) = none := by
        unfold fixMatchAt
        rw [dropPrefix?_eq_none _ _ (by simpa using hh 0 (by simp))]
      rw [firstMatch, h0]
      exact ih fun i hi => by simpa using hh (i + 1) (by simpa using Nat.succ_lt_succ hi)
  rw [hnone s.data h]

theorem extract_fixes_block (pre ws1 lang body ws2 post : String)
    (hws1 : ws1.data.all isWs = true) (hws2 : ws2.data.all isWs = true)
    (hlang : lang.data.all isWordChar = true)
    (hocc : occurs ticks body.data = false)
    (hpre : ∀ i < pre.data.length, fixStartMarker.isPrefixOf
      ((pre ++ (mkFixBlock ws1 lang body ws2 ++ post)).data.drop i) = false) :
    extract_fixes (pre ++ (mkFixBlock ws1 lang body ws2 ++ post)) =
      String.mk (stripBoth body.data) := by
  unfold extract_fixes
  rw [String.data_append]
  rw [firstMatch_append fixMatchAt pre.data _ fun i hi => by
    have h0 := hpre i hi
    rw [String.data_append] at h0
    unfold fixMatchAt
    rw [dropPrefix?_eq_none _ _ h0]]
  rw [firstMatch_head_some _ _ _ (fixMatchAt_block ws1 lang body ws2 post hws1 hws2 hlang hocc)]
  show String.mk (stripBoth (stripTrailing body.data)) = _
  rw [stripBoth_stripTrailing]

/-! ## Claims -/

/-- **C1.** The claim says an append-mode invocation of the publisher
skips the snippet search and concatenates.  On the code it cannot: the
docs-PR call site of app.py invokes `create_pr_with_fix` with the
keyword argument `append=True`, but the function has no `append`
parameter, so Python raises `TypeError` at binding time — before the
credential is read and before any HTTP request — and in particular no
content is ever computed, by concatenation or otherwise.  This theorem
evaluates the code at that failing invocation: for every environment,
remote state and argument values, passing `append` yields the
`TypeError` outcome with an empty request trace. -/
theorem claim_C1_append_invocation_raises_TypeError (env : Option String) (remote : Remote)
    (repo branch file_path old_code new_code commit_message pr_title pr_body : String) :
    invoke_create_pr_with_fix env remote repo branch file_path old_code new_code
      commit_message pr_title pr_body (some true) =
      ([], .error (.typeError
        "create_pr_with_fix() got an unexpected keyword argument append")) := rfl

/-- **C3.** With the `GITHUB_TOKEN` environment credential absent,
`create_pr_with_fix` fails with the missing-credential `ValueError`
("GITHUB_TOKEN not found in environment") and the issued-request trace
is empty: no HTTP call is attempted, for every remote state and every
argument values. -/
theorem claim_C3_missing_credential_before_any_call (remote : Remote)
    (repo branch file_path old_code new_code commit_message pr_title pr_body : String) :
    create_pr_with_fix none remote repo branch file_path old_code new_code
      commit_message pr_title pr_body = ([], .error .missingCredential) := rfl

/-- **C7.** If the language-model call fails, `run_code_review` still
returns a populated result: the review field is the failure message
(`"LLM Review Failed: " ++ e`), the output character count is 0, and the
input character count is the length of the system prompt plus the user
message — the same value as on the success path, because it is computed
before the call (last conjunct: any other call outcome yields the same
input count). -/
theorem claim_C7_llm_failure_returns_populated_result
    (llm : List (String × String) → Except String String) (latency : Nat) (g d e : String)
    (hfail : llm [("system", (build_review_prompt d g).1),
      ("user", (build_review_prompt d g).2)] = .error e) :
    (run_code_review llm latency g d).review = "LLM Review Failed: " ++ e ∧
    (run_code_review llm latency g d).output_chars = 0 ∧
    (run_code_review llm latency g d).input_chars =
      (build_review_prompt d g).1.length + (build_review_prompt d g).2.length ∧
    ∀ (llm2 : List (String × String) → Except String String) (t2 : Nat),
      (run_code_review llm2 t2 g d).input_chars =
        (run_code_review llm latency g d).input_chars := by
  refine ⟨?_, ?_, ?_, ?_⟩
  · simp [run_code_review, hfail]
  · simp [run_code_review, hfail]
  · simp [run_code_review, hfail]
  · intro llm2 t2
    cases h2 : llm2 [("system", (build_review_prompt d g).1),
      ("user", (build_review_prompt d g).2)] <;>
      simp [run_code_review, hfail, h2]

theorem claim_C7_witness :
    (run_code_review (fun _ => .error "connection refused") 0 "" "diff").review =
      "LLM Review Failed: " ++ "connection refused" ∧
    (run_code_review (fun _ => .error "connection refused") 0 "" "diff").output_chars = 0 ∧
    (run_code_review (fun _ => .error "connection refused") 0 "" "diff").input_chars =
      (build_review_prompt "diff" "").1.length + (build_review_prompt "diff" "").2.length ∧
    ∀ (llm2 : List (String × String) → Except String String) (t2 : Nat),
      (run_code_review llm2 t2 "" "diff").input_chars =
        (run_code_review (fun _ => .error "connection refused") 0 "" "diff").input_chars :=
  claim_C7_llm_failure_returns_populated_result
    (fun _ => .error "connection refused") 0 "" "diff" "connection refused" rfl

/-- **C8.** The review prompt is a deterministic (pure) function of the
diff text and the guideline text alone: building it twice from equal
inputs yields identical system text and identical user text.  In the
embedding this is determinism of `build_review_prompt`, which the
source computes from exactly these two values (the guideline text being
the session state read at call time). -/
theorem claim_C8_prompt_build_deterministic (d g d' g' : String)
    (hd : d = d') (hg : g = g') :
    (build_review_prompt d g).1 = (build_review_prompt d' g').1 ∧
    (build_review_prompt d g).2 = (build_review_prompt d' g').2 := by
  subst hd; subst hg
  exact ⟨rfl, rfl⟩

theorem claim_C8_witness :
    (build_review_prompt "diff text" "- rule").1 =
      (build_review_prompt "diff text" "- rule").1 ∧
    (build_review_prompt "diff text" "- rule").2 =
      (build_review_prompt "diff text" "- rule").2 :=
  claim_C8_prompt_build_deterministic "diff text" "- rule" "diff text" "- rule" rfl rfl

/-- **C9.** With an empty `old_code` (the value the docs-PR path passes)
and no `append` keyword, `create_pr_with_fix` can never fail with the
snippet-not-found error — the Python containment test `"" in content` is
always true — and whenever the choreography reaches the commit step, the
content it PUTs is `new_code ++ current content`: the new text is
prepended (the first occurrence of the empty string is at position 0),
not appended. -/
theorem claim_C9_empty_old_code_prepends (env : Option String) (remote : Remote)
    (repo branch file_path new_code commit_message pr_title pr_body : String) :
    (create_pr_with_fix env remote repo branch file_path "" new_code commit_message
      pr_title pr_body).2 ≠ Except.error PubErr.snippetNotFound ∧
    (∀ token main_sha download_url file_sha,
      env = some token → ¬ token = "" → remote.mainRef = some main_sha →
      remote.createRefStatus = 201 → remote.fileInfo = some (download_url, file_sha) →
      Req.putContents repo file_path commit_message (new_code ++ remote.fileText)
          file_sha branch ∈
        (create_pr_with_fix env remote repo branch file_path "" new_code commit_message
          pr_title pr_body).1) := by
  constructor
  · unfold create_pr_with_fix
    cases env with
    | none => simp
    | some token =>
      repeat' split
      all_goals simp_all [occursStr_nil]
  · intro token main_sha download_url file_sha henv htok href hcr hfi
    subst henv
    simp only [create_pr_with_fix, if_neg htok, href, hcr, hfi, occursStr_nil,
      replaceFirstStr_nil, Bool.true_eq_false, if_neg (by simp : ¬ (201 ≠ 201))]
    cases remote.putOk <;> cases remote.pullOk <;> simp

theorem claim_C9_witness :
    (create_pr_with_fix (some "tk") sampleRemote "r" "b" "f" "" "NEW" "m" "t" "body").2 ≠
      Except.error PubErr.snippetNotFound ∧
    Req.putContents "r" "f" "m" ("NEW" ++ sampleRemote.fileText) "bsha" "b" ∈
      (create_pr_with_fix (some "tk") sampleRemote "r" "b" "f" "" "NEW" "m" "t" "body").1 :=
  ⟨(claim_C9_empty_old_code_prepends (some "tk") sampleRemote "r" "b" "f" "NEW" "m" "t" "body").1,
   (claim_C9_empty_old_code_prepends (some "tk") sampleRemote "r" "b" "f" "NEW" "m" "t" "body").2
     "tk" "sha0" "u" "bsha" rfl (by decide) rfl rfl rfl⟩

/-- **C2.** Without the `append` keyword (the spec's append=false), when
`old_code` does not occur in the current remote content the publisher
stops with the snippet-not-found `ValueError` having issued exactly the
get-ref, create-ref, get-contents and raw-download requests — in
particular neither the update/commit PUT nor the create-pull POST is
ever issued; and when the content is `pre ++ old_code ++ post` with no
earlier occurrence of `old_code`, the content committed by the PUT is
`pre ++ new_code ++ post`: exactly the first occurrence is replaced. -/
theorem claim_C2_snippet_not_found_fails_before_commit (env : Option String) (remote : Remote)
    (repo branch file_path old_code new_code commit_message pr_title pr_body : String)
    (token main_sha download_url file_sha : String) (pre post : String)
    (henv : env = some token) (htok : ¬ token = "")
    (href : remote.mainRef = some main_sha)
    (hcr : remote.createRefStatus = 201)
    (hfi : remote.fileInfo = some (download_url, file_sha)) :
    (occursStr old_code remote.fileText = false →
      create_pr_with_fix env remote repo branch file_path old_code new_code
          commit_message pr_title pr_body =
        ([Req.getRef repo, Req.createRef repo branch main_sha,
          Req.getContents repo file_path, Req.download download_url],
         .error .snippetNotFound) ∧
      ∀ r ∈ (create_pr_with_fix env remote repo branch file_path old_code new_code
          commit_message pr_title pr_body).1,
        isUpdateReq r = false ∧ isPullReq r = false) ∧
    (remote.fileText = pre ++ old_code ++ post →
      (∀ i < pre.data.length,
        old_code.data.isPrefixOf (((pre ++ old_code ++ post) : String).data.drop i) = false) →
      Req.putContents repo file_path commit_message (pre ++ new_code ++ post)
          file_sha branch ∈
        (create_pr_with_fix env remote repo branch file_path old_code new_code
          commit_message pr_title pr_body).1) := by
  subst henv
  constructor
  · intro hno
    have hred : create_pr_with_fix (some token) remote repo branch file_path old_code
        new_code commit_message pr_title pr_body =
        ([Req.getRef repo, Req.createRef repo branch main_sha,
          Req.getContents repo file_path, Req.download download_url],
         .error .snippetNotFound) := by
      simp only [create_pr_with_fix, if_neg htok, href, hcr, hfi, hno,
        if_neg (by simp : ¬ (201 ≠ 201))]
      rfl
    refine ⟨hred, ?_⟩
    rw [hred]
    intro r hr
    fin_cases hr <;> simp [isUpdateReq, isPullReq]
  · intro hsplit hfirst
    have hocc : occursStr old_code remote.fileText = true := by
      rw [hsplit]
      unfold occursStr
      refine occurs_of_suffix old_code.data
        (old_code.data ++ post.data) _ ?_ ?_
      · have : ((pre ++ old_code ++ post) : String).data =
            pre.data ++ (old_code.data ++ post.data) := by
          simp [String.data_append]
        rw [this]
        exact (List.suffix_append pre.data _)
      · exact List.isPrefixOf_iff_prefix.2 (List.prefix_append _ _)
    have hrepl : replaceFirstStr remote.fileText old_code new_code =
        pre ++ new_code ++ post := by
      rw [hsplit]
      exact replaceFirstStr_first pre old_code post new_code hfirst
    simp only [create_pr_with_fix, if_neg htok, href, hcr, hfi, hocc, hrepl,
      if_neg (by simp : ¬ (201 ≠ 201))]
    cases remote.putOk <;> cases remote.pullOk <;> simp

theorem claim_C2_witness :
    (create_pr_with_fix (some "tk") sampleRemote "r" "b" "f" "zzz" "NEW" "m" "t" "body" =
        ([Req.getRef "r", Req.createRef "r" "b" "sha0",
          Req.getContents "r" "f", Req.download "u"],
         .error .snippetNotFound) ∧
      ∀ r ∈ (create_pr_with_fix (some "tk") sampleRemote "r" "b" "f" "zzz" "NEW"
          "m" "t" "body").1,
        isUpdateReq r = false ∧ isPullReq r = false) ∧
    Req.putContents "r" "f" "m" ("xy " ++ "NEW" ++ " z abc") "bsha" "b" ∈
      (create_pr_with_fix (some "tk")
        { sampleRemote with fileText := "xy abc z abc" }
        "r" "b" "f" "abc" "NEW" "m" "t" "body").1 :=
  ⟨(claim_C2_snippet_not_found_fails_before_commit (some "tk") sampleRemote
      "r" "b" "f" "zzz" "NEW" "m" "t" "body" "tk" "sha0" "u" "bsha" "" ""
      rfl (by decide) rfl rfl rfl).1 (by decide),
   (claim_C2_snippet_not_found_fails_before_commit (some "tk")
      { sampleRemote with fileText := "xy abc z abc" }
      "r" "b" "f" "abc" "NEW" "m" "t" "body" "tk" "sha0" "u" "bsha" "xy " " z abc"
      rfl (by decide) rfl rfl rfl).2 (by decide) (by decide)⟩

/-- **C6 (counterexample).** The claim "each line is prefixed by `- `"
fails on the code: the source builds `f"- {rule}".strip()`, so the
whitespace-only (hence non-empty) element `" "` produces the line `"-"`,
which is not `"- "`-prefixed. -/
theorem claim_C6_counterexample :
    load_guidelines_list [" "] = "-" ∧
    "- ".data.isPrefixOf (load_guidelines_list [" "]).data = false := by
  constructor
  · rfl
  · rfl

/-- **C6 (amended).** For guideline lists whose elements are single-line
and either empty or containing some non-whitespace character,
`load_guidelines` renders one line per non-empty element, in input
order, with empty elements dropped: the lines of the output are exactly
`('- ' + element).strip()` for the kept elements, and each such line is
`'- '`-prefixed and non-blank (so the output has no blank lines).  The
restriction to such elements is forced by the counterexample: a
whitespace-only element yields the bare line `-`. -/
theorem claim_C6_amended_list_rendering (rules : List String)
    (hok : ∀ r ∈ rules, r ≠ "" →
      r.data.any (fun c => !(isWs c)) = true ∧ '\n' ∉ r.data)
    (hne : rules.filter (fun r => r != "") ≠ []) :
    splitlines (load_guidelines_list rules).data =
      (rules.filter (fun r => r != "")).map (fun r => stripBoth ("- " ++ r).data) ∧
    ∀ r ∈ rules.filter (fun r => r != ""),
      "- ".data.isPrefixOf (stripBoth ("- " ++ r).data) = true ∧
      stripBoth ("- " ++ r).data ≠ [] := by
  have key : ∀ r ∈ rules.filter (fun r => r != ""),
      stripBoth ("- " ++ r).data = '-' :: ' ' :: stripTrailing r.data ∧
      '\n' ∉ stripBoth ("- " ++ r).data := by
    intro r hr
    rw [List.mem_filter] at hr
    have hr2 : r ≠ "" := by simpa using hr.2
    obtain ⟨hany, hnl⟩ := hok r hr.1 hr2
    exact guideline_line_facts r hany hnl
  constructor
  · show splitlines (intercalateNl
      ((rules.filter (fun r => r != "")).map (fun r => stripBoth ("- " ++ r).data))) = _
    refine splitlines_intercalateNl _ ?_ ?_
    · intro hmapnil
      exact hne (List.map_eq_nil_iff.1 hmapnil)
    · intro l hl
      rw [List.mem_map] at hl
      obtain ⟨r, hr, rfl⟩ := hl
      obtain ⟨hshape, hnlmem⟩ := key r hr
      refine ⟨?_, hnlmem⟩
      rw [hshape]
      simp
  · intro r hr
    obtain ⟨hshape, _⟩ := key r hr
    rw [hshape]
    constructor
    · have h2 : ("- " : String).data = ['-', ' '] := rfl
      rw [h2]
      simp [List.isPrefixOf_cons₂, List.isPrefixOf]
    · simp

theorem claim_C6_witness :
    splitlines (load_guidelines_list ["Use type hints", "", "Max line: 88"]).data =
      ((["Use type hints", "", "Max line: 88"] : List String).filter
        (fun r => r != "")).map (fun r => stripBoth ("- " ++ r).data) ∧
    ∀ r ∈ (["Use type hints", "", "Max line: 88"] : List String).filter
        (fun r => r != ""),
      "- ".data.isPrefixOf (stripBoth ("- " ++ r).data) = true ∧
      stripBoth ("- " ++ r).data ≠ [] :=
  claim_C6_amended_list_rendering ["Use type hints", "", "Max line: 88"]
    (by decide) (by decide)

/-- **C5.** For review text whose Documentation Suggestions section is
exactly the sentinel `"Documentation Suggestions: None needed."` (the
section ends the text, and no earlier position of the text matches the
section-header pattern), `extract_doc_suggestions` returns no entries:
the single captured line `"None needed."` does not match the
file-marker shape (`"None"` is followed by neither `:` nor `-`), so the
loop never opens an entry. -/
theorem claim_C5_sentinel_yields_no_entries (pre : String)
    (h : ∀ i < pre.data.length,
      docHeaderAt ((pre ++ "Documentation Suggestions: None needed.").data.drop i) = none) :
    extract_doc_suggestions (pre ++ "Documentation Suggestions: None needed.") = [] := by
  unfold extract_doc_suggestions
  rw [String.data_append]
  rw [firstMatch_append docHeaderAt pre.data "Documentation Suggestions: None needed.".data
    fun i hi => by have := h i hi; rwa [String.data_append] at this]
  rfl

theorem claim_C5_witness :
    extract_doc_suggestions
      ("Review text.\n" ++ "Documentation Suggestions: None needed.") = [] :=
  claim_C5_sentinel_yields_no_entries "Review text.\n" (by decide)

/-- **C10.** Inside a Documentation Suggestions section, all lines that
precede the first file-marker line are silently discarded: the result of
`extract_doc_suggestions` equals the result of the line loop run on the
remaining lines alone, so the discarded lines (`junk`, none of which
matches the file-marker pattern) contribute to no returned entry.  The
hypotheses pin the section shape: the section body follows the header
immediately, contains at least one non-whitespace character and no
numbered-item stop pattern, and its stripped lines split as
`junk ++ rest`. -/
theorem claim_C10_lines_before_first_marker_discarded (body : String)
    (junk rest : List (List Char))
    (hne : body.data.dropWhile isWs ≠ [])
    (hstop : ∀ k, k < (body.data.dropWhile isWs).length → 0 < k →
      stopCheck ((body.data.dropWhile isWs).drop k) = false)
    (hsplit : splitlines (stripBoth body.data) = junk ++ rest)
    (hjunk : ∀ l ∈ junk, lineFileMatch l = none) :
    extract_doc_suggestions ("Documentation Suggestions:" ++ body) =
      (processLines rest none []).map (fun p => (String.mk p.1, String.mk p.2)) := by
  unfold extract_doc_suggestions
  rw [String.data_append]
  obtain ⟨c, w', hw⟩ : ∃ c w', body.data.dropWhile isWs = c :: w' := by
    cases hcw : body.data.dropWhile isWs with
    | nil => exact absurd hcw hne
    | cons c w' => exact ⟨c, w', rfl⟩
  rw [firstMatch_head_some docHeaderAt _ _ (docHeaderAt_header_cons body.data c w' hw)]
  show (processLines (splitlines (stripBoth (captureTo [c] w'))) none []).map
      (fun p => (String.mk p.1, String.mk p.2)) = _
  have hcap : captureTo [c] w' = c :: w' := by
    have h' : ∀ k < w'.length, stopCheck (w'.drop k) = false := by
      intro k hk
      have h2 := hstop (k + 1)
        (by rw [hw]; simpa using Nat.succ_lt_succ hk) (Nat.succ_pos k)
      rw [hw] at h2
      simpa using h2
    rw [captureTo_no_stop w' [c] h']
    simp
  have hsb : stripBoth (body.data.dropWhile isWs) = stripBoth body.data := by
    unfold stripBoth
    rw [dropWhile_idem]
  rw [hcap, ← hw, hsb, hsplit, processLines_skip junk rest hjunk []]

theorem claim_C10_witness :
    extract_doc_suggestions ("Documentation Suggestions:" ++
        " intro words\nmore preamble\nREADME.md: add docs\nextra detail") =
      (processLines [['R','E','A','D','M','E','.','m','d',':',' ','a','d','d',' ',
        'd','o','c','s'], ['e','x','t','r','a',' ','d','e','t','a','i','l']]
        none []).map (fun p => (String.mk p.1, String.mk p.2)) :=
  claim_C10_lines_before_first_marker_discarded
    " intro words\nmore preamble\nREADME.md: add docs\nextra detail"
    [['i','n','t','r','o',' ','w','o','r','d','s'],
     ['m','o','r','e',' ','p','r','e','a','m','b','l','e']]
    [['R','E','A','D','M','E','.','m','d',':',' ','a','d','d',' ',
      'd','o','c','s'], ['e','x','t','r','a',' ','d','e','t','a','i','l']]
    (by decide) (by decide) (by decide) (by decide)

/-- **C4.** `extract_fixes` on the three section shapes of the claim.
A well-formed fix block is `mkFixBlock ws1 lang body ws2` with `ws1`,
`ws2` whitespace, `lang` a (possibly empty) word-character tag, and a
body that contains no inner fence (a fenced code block ends at the
first closing fence).  (1) Review text in which the start marker
`[FIX_START]` occurs nowhere — hence containing zero blocks — yields
the empty string.  (2) Review text consisting of such a block, preceded
by text in which the start marker does not occur and followed by
arbitrary text, yields the trimmed body of that block.  (3) With a
second well-formed block further right (arbitrary tag/whitespace/body),
only the body of the first block is returned, trimmed. -/
theorem claim_C4_extract_fixes_first_block
    (s pre ws1 lang body ws2 post mid ws3 lang2 body2 ws4 post2 : String)
    (h0 : ∀ i < s.data.length, fixStartMarker.isPrefixOf (s.data.drop i) = false)
    (hws1 : ws1.data.all isWs = true) (hws2 : ws2.data.all isWs = true)
    (hlang : lang.data.all isWordChar = true)
    (hocc : occurs ticks body.data = false)
    (hpre2 : ∀ i < pre.data.length, fixStartMarker.isPrefixOf
      ((pre ++ (mkFixBlock ws1 lang body ws2 ++ post)).data.drop i) = false)
    (hpre3 : ∀ i < pre.data.length, fixStartMarker.isPrefixOf
      ((pre ++ (mkFixBlock ws1 lang body ws2 ++
        (mid ++ (mkFixBlock ws3 lang2 body2 ws4 ++ post2)))).data.drop i) = false) :
    extract_fixes s = "" ∧
    extract_fixes (pre ++ (mkFixBlock ws1 lang body ws2 ++ post)) =
      String.mk (stripBoth body.data) ∧
    extract_fixes (pre ++ (mkFixBlock ws1 lang body ws2 ++
        (mid ++ (mkFixBlock ws3 lang2 body2 ws4 ++ post2)))) =
      String.mk (stripBoth body.data) :=
  ⟨extract_fixes_no_marker s h0,
   extract_fixes_block pre ws1 lang body ws2 post hws1 hws2 hlang hocc hpre2,
   extract_fixes_block pre ws1 lang body ws2
     (mid ++ (mkFixBlock ws3 lang2 body2 ws4 ++ post2)) hws1 hws2 hlang hocc hpre3⟩

theorem claim_C4_witness :
    extract_fixes "a review with no fix marker at all" = "" ∧
    extract_fixes ("Intro.\n" ++ (mkFixBlock " " "python" " x = 1 " "\n" ++ " tail")) =
      String.mk (stripBoth (" x = 1 " : String).data) ∧
    extract_fixes ("Intro.\n" ++ (mkFixBlock " " "python" " x = 1 " "\n" ++
        ("\nmiddle\n" ++ (mkFixBlock "" "js" "y" " " ++ "")))) =
      String.mk (stripBoth (" x = 1 " : String).data) :=
  claim_C4_extract_fixes_first_block
    "a review with no fix marker at all" "Intro.\n" " " "python" " x = 1 " "\n"
    " tail" "\nmiddle\n" "" "js" "y" " " ""
    (by decide) (by decide) (by decide) (by decide) (by decide) (by decide) (by decide)

end Spec2Proof
